import Mathlib

/-!
Verification of the deletion and purge engine of the Email-to-RSS worker
(`src/routes/admin.ts`, `src/utils/storage.ts`, and the inbound email
handler), shallowly embedded in Lean.

The key-value store is modelled as an association list; the outcome of a
backend delete call (the promise fulfilling or rejecting) is modelled by a
boolean oracle `delOk` over keys, matching the adapter contract in which
deleting an absent key is a fulfilled no-op.  The global feed list record
(`feeds:list`) and the per-feed metadata record are carried as separate
components of the state, which is sound because the routes under study
access them only through their dedicated read-modify-write helpers.
-/

namespace EmailToRss

/-- One entry of a feed's metadata index (`EmailMetadata` in `src/types`). -/
structure EmailMetadata where
  key : String
  subject : String
  receivedAt : Nat
deriving DecidableEq, Repr

/-- A feed's metadata index record (`FeedMetadata` in `src/types`). -/
structure FeedMetadata where
  emails : List EmailMetadata
deriving DecidableEq, Repr

/-- One entry of the global feed list (`FeedListItem`). -/
structure FeedListItem where
  id : String
  title : String
  description : Option String
deriving DecidableEq, Repr

/-- The global feed list record held at `feeds:list` (`FeedList`). -/
structure FeedList where
  feeds : List FeedListItem
deriving DecidableEq, Repr

/-- The key-value store, as an association list from keys to stored values. -/
def Store := List (String × String)
deriving DecidableEq

/-- Read a key from the store (`emailStorage.get`): the value at the first
matching binding, or `none` when the key is absent. -/
def Store.get : Store → String → Option String
  | [], _ => none
  | p :: rest, k => if p.1 = k then some p.2 else Store.get rest k

/-- Remove every binding of a key from the store. -/
def Store.del : Store → String → Store
  | [], _ => []
  | p :: rest, k => if p.1 = k then Store.del rest k else p :: Store.del rest k

/-- One backend delete call (`emailStorage.delete`): the oracle `delOk`
says whether the underlying promise fulfils; a fulfilled delete removes the
key (deleting an absent key is a fulfilled no-op), a rejected one leaves
the store unchanged. -/
def kvDelete (delOk : String → Bool) (s : Store) (k : String) : Bool × Store :=
  if delOk k then (true, s.del k) else (false, s)

/-- The JavaScript truthiness filter `filter(Boolean)` on strings: keep the
non-empty ones. -/
def nonEmptyStr (s : String) : Bool := !(s == "")

/-- First-occurrence de-duplication, the order-preserving behaviour of
JavaScript `Array.from(new Set(xs))`, written with an accumulator of the
values already seen. -/
def jsSetDedupAux (seen : List String) : List String → List String
  | [] => []
  | k :: rest =>
    if k ∈ seen then jsSetDedupAux seen rest
    else k :: jsSetDedupAux (k :: seen) rest

/-- `Array.from(new Set(xs))`. -/
def jsSetDedup (l : List String) : List String :=
  jsSetDedupAux [] l

/-- The loop `for (let i = 0; i < xs.length; i += step) xs.slice(i, i + step)`,
written with the list's length as structural fuel so that it computes in the
kernel; the callers always pass `step ≥ 1`, under which the fuel suffices. -/
def chunkListGo : Nat → Nat → List String → List (List String)
  | _, _, [] => []
  | 0, _, l => [l]
  | fuel + 1, step, l => l.take step :: chunkListGo fuel step (l.drop step)

/-- Split a list into consecutive chunks of size at most `step`. -/
def chunkList (step : Nat) (l : List String) : List (List String) :=
  chunkListGo l.length step l

/-- Run the backend deletes of one list of keys in order, collecting the
keys whose promise fulfilled, the keys whose promise rejected, and the
resulting store.  This is the effect of the per-batch
`Promise.allSettled(batch.map((key) => emailStorage.delete(key)))` loop of
`deleteKeysWithConcurrency`, flattened over the batches: each settled
result is pushed to `ok` or `failed` in batch order. -/
def runKeyDeletes (delOk : String → Bool) : List String → Store →
    List String × List String × Store
  | [], st => ([], [], st)
  | k :: rest, st =>
    let r := kvDelete delOk st k
    let t := runKeyDeletes delOk rest r.2
    if r.1 then (k :: t.1, t.2.1, t.2.2) else (t.1, k :: t.2.1, t.2.2)

/-- The batches the Bounded Deletion Pool forms:
`uniqueKeys = Array.from(new Set(keys.filter(Boolean)))` split by the loop
stride `limit = Math.max(1, Math.floor(concurrency) || 1)` (for a natural
`concurrency` this stride is `max 1 concurrency`). -/
def deletionBatches (keys : List String) (concurrency : Nat) : List (List String) :=
  chunkList (max 1 concurrency) (jsSetDedup (keys.filter nonEmptyStr))

/-- `deleteKeysWithConcurrency` of `src/routes/admin.ts`: de-duplicate the
non-empty keys, process them in consecutive batches of at most the
effective concurrency, and record per-key fulfilment (`ok`) or rejection
(`failed`). -/
def deleteKeysWithConcurrency (delOk : String → Bool) (st : Store)
    (keys : List String) (concurrency : Nat) :
    List String × List String × Store :=
  runKeyDeletes delOk (deletionBatches keys concurrency).flatten st

/-- The largest number of deletions in flight at once in the Bounded
Deletion Pool: batches run one after another and all deletes of one batch
run concurrently, so this is the length of the largest batch. -/
def peakInFlight (keys : List String) (concurrency : Nat) : Nat :=
  ((deletionBatches keys concurrency).map List.length).foldr max 0

/-- The feed's config control key. -/
def feedConfigKey (feedId : String) : String := "feed:" ++ feedId ++ ":config"

/-- The feed's metadata-index control key. -/
def feedMetadataKeyOf (feedId : String) : String := "feed:" ++ feedId ++ ":metadata"

/-- The key space of a feed's stored records. -/
def feedKeyPfx (feedId : String) : String := "feed:" ++ feedId ++ ":"

/-- A feed exists when its config record is present. -/
def feedExists (st : Store) (feedId : String) : Bool :=
  (Store.get st (feedConfigKey feedId)).isSome

/-- `deleteFeedFast` of `src/routes/admin.ts`: delete the feed's config and
metadata keys through `Promise.allSettled` and return whether both deletes
fulfilled.  The two keys are distinct, so running the two concurrent
deletes one after the other is an equivalent serialisation. -/
def deleteFeedFastSt (delOk : String → Bool) (st : Store) (feedId : String) :
    Bool × Store :=
  let r1 := kvDelete delOk st (feedConfigKey feedId)
  let r2 := kvDelete delOk r1.2 (feedMetadataKeyOf feedId)
  (r1.1 && r2.1, r2.2)

/-- The boolean `deleteFeedFast` returns, which depends only on the backend
outcomes of the two control-key deletes. -/
def deleteFeedFastOk (delOk : String → Bool) (feedId : String) : Bool :=
  delOk (feedConfigKey feedId) && delOk (feedMetadataKeyOf feedId)

/-- `removeFeedsFromListBulk` of `src/routes/admin.ts`: read-modify-write of
the `feeds:list` record that drops every entry whose id is in the request
and returns the ids of the entries actually removed, in list order. -/
def removeFeedsFromListBulk (feedList : FeedList) (feedIds : List String) :
    List String × FeedList :=
  let toRemove := jsSetDedup (feedIds.filter nonEmptyStr)
  if toRemove.isEmpty then ([], feedList)
  else
    let removed := (feedList.feeds.filter (fun f => decide (f.id ∈ toRemove))).map
      (fun f => f.id)
    let nextFeeds := feedList.feeds.filter (fun f => !(decide (f.id ∈ toRemove)))
    if removed.isEmpty then ([], feedList)
    else (removed, ⟨nextFeeds⟩)

/-- `removeFeedFromList`: the single-feed wrapper over the bulk list update. -/
def removeFeedFromList (feedList : FeedList) (feedId : String) : Bool × FeedList :=
  let r := removeFeedsFromListBulk feedList [feedId]
  (decide (feedId ∈ r.1), r.2)

/-- The single feed delete route `POST /feeds/:feedId/delete`: run the fast
delete, then remove the feed from the global list; the fast delete's
boolean is not inspected, and the response in the non-throwing path is
always the success shape. -/
def deleteFeedRoute (delOk : String → Bool) (st : Store) (feedList : FeedList)
    (feedId : String) : Bool × Store × FeedList :=
  let fast := deleteFeedFastSt delOk st feedId
  let rm := removeFeedFromList feedList feedId
  (true, fast.2, rm.2)

/-- Run `deleteFeedFast` for each id in order, pairing every id with its
boolean outcome; the store threads through.  This is the effect of the
sub-batched `Promise.all` loop of the bulk feed delete route: each batch's
results are pushed in batch order, so the flattened result list follows the
input order. -/
def runFastDeletes (delOk : String → Bool) : List String → Store →
    List (String × Bool) × Store
  | [], st => ([], st)
  | feedId :: rest, st =>
    let r := deleteFeedFastSt delOk st feedId
    let t := runFastDeletes delOk rest r.2
    ((feedId, r.1) :: t.1, t.2)

/-- The response of the bulk feed delete route in its JSON branch. -/
inductive BulkFeedsResponse
  | errorNoSelection
  | errorTooMany
  | success (ok : Bool) (deletedFeedIds failedFeedIds : List String)
deriving DecidableEq, Repr

/-- `POST /feeds/bulk-delete`, JSON branch: de-duplicate the non-empty ids,
reject an empty selection (400) and more than 50 ids (413), otherwise run
`deleteFeedFast` per id in sub-batches of 10, partition into ok/failed,
rewrite the `feeds:list` record for the ok ids, and answer with the
`deletedFeedIds`/`failedFeedIds` pair. -/
def bulkDeleteFeedsJson (delOk : String → Bool) (st : Store) (feedList : FeedList)
    (rawIds : List String) : BulkFeedsResponse × Store × FeedList :=
  let parsedFeedIds := jsSetDedup (rawIds.filter nonEmptyStr)
  if parsedFeedIds.isEmpty then (.errorNoSelection, st, feedList)
  else if parsedFeedIds.length > 50 then (.errorTooMany, st, feedList)
  else
    let run := runFastDeletes delOk ((chunkList 10 parsedFeedIds).flatten) st
    let okIds := (run.1.filter (fun r => r.2)).map (fun r => r.1)
    let failedFeedIds := (run.1.filter (fun r => !r.2)).map (fun r => r.1)
    let rm := removeFeedsFromListBulk feedList okIds
    (.success failedFeedIds.isEmpty rm.1 failedFeedIds, run.2, rm.2)

/-- The response of the bulk feed delete route in its form-data branch:
always a redirect, either the no-op message or the deleted count. -/
inductive BulkFeedsFormResponse
  | redirectNoop
  | redirectDeleted (count : Nat)
deriving DecidableEq, Repr

/-- `POST /feeds/bulk-delete`, form-data branch: same processing as the
JSON branch but with no batch-size cap and a redirect response. -/
def bulkDeleteFeedsForm (delOk : String → Bool) (st : Store) (feedList : FeedList)
    (rawIds : List String) : BulkFeedsFormResponse × Store × FeedList :=
  let parsedFeedIds := jsSetDedup (rawIds.filter nonEmptyStr)
  if parsedFeedIds.isEmpty then (.redirectNoop, st, feedList)
  else
    let run := runFastDeletes delOk ((chunkList 10 parsedFeedIds).flatten) st
    let okIds := (run.1.filter (fun r => r.2)).map (fun r => r.1)
    let rm := removeFeedsFromListBulk feedList okIds
    (.redirectDeleted rm.1.length, run.2, rm.2)

/-- `updateFeedMetadata` of `src/utils/storage.ts`: prepend the new entry
to the (possibly absent) metadata record and keep only the first 50
entries. -/
def updateFeedMetadata (md : Option FeedMetadata) (em : EmailMetadata) :
    FeedMetadata :=
  let metadata := md.getD ⟨[]⟩
  let emails := em :: metadata.emails
  ⟨if emails.length > 50 then emails.take 50 else emails⟩

/-- The metadata update of the inbound email handler (`src/unnamed/part_005`,
`handleEmailWebhook`): prepend the new entry to the (possibly absent)
metadata record and store it back, with no trimming. -/
def inboundMetadataUpdate (md : Option FeedMetadata) (em : EmailMetadata) :
    FeedMetadata :=
  let metadata := md.getD ⟨[]⟩
  ⟨em :: metadata.emails⟩

/-- The result of one `emailStorage.list` call (`keys`, `cursor`,
`list_complete`). -/
structure KvListResult where
  keys : List String
  cursor : Option String
  listComplete : Bool
deriving DecidableEq, Repr

/-- The value of `purgeFeedKeysStep`. -/
structure PurgeStepResult where
  deletedKeys : List String
  failedKeys : List String
  cursor : String
  listComplete : Bool
deriving DecidableEq, Repr

/-- The effective page limit of `purgeFeedKeysStep`:
`Math.min(1000, Math.max(1, Math.floor(options.limit || 250)))`, where an
absent limit and a limit of `0` are both falsy and fall back to 250. -/
def effectiveLimit (limit : Option Int) : Int :=
  min 1000 (max 1 (match limit with
    | none => 250
    | some n => if n = 0 then 250 else n))

/-- The effective cursor of `purgeFeedKeysStep`:
`options.cursor || undefined`, so an absent or empty cursor starts the
listing at the beginning of the prefix. -/
def effectiveCursor (cursor : Option String) : Option String :=
  match cursor with
  | none => none
  | some s => if s = "" then none else some s

/-- `purgeFeedKeysStep` of `src/routes/admin.ts`: list one page of keys
under the feed's prefix at the effective cursor and limit, delete the
listed keys through the pool at the fixed internal concurrency 35, and
return the page outcome together with the listing's next cursor
(`listed.cursor || ""`) and completion flag.  The listing backend is the
parameter `listFn`, applied to the prefix, the cursor and the limit. -/
def purgeFeedKeysStep (listFn : String → Option String → Int → KvListResult)
    (delOk : String → Bool) (st : Store) (feedId : String)
    (cursor : Option String) (limit : Option Int) : PurgeStepResult × Store :=
  let listed := listFn (feedKeyPfx feedId) (effectiveCursor cursor) (effectiveLimit limit)
  let r := deleteKeysWithConcurrency delOk st listed.keys 35
  (⟨r.1, r.2.1, listed.cursor.getD "", listed.listComplete⟩, r.2.2)

/-- The JSON answer of the purge route `POST /feeds/:feedId/purge`. -/
structure PurgeRouteResponse where
  ok : Bool
  deletedCount : Nat
  failedCount : Nat
  cursor : String
  listComplete : Bool
deriving DecidableEq, Repr

/-- `POST /feeds/:feedId/purge`: a non-numeric or absent body limit becomes
250, an absent or falsy body cursor becomes no cursor, and the step result
is reported as counts. -/
def purgeRoute (listFn : String → Option String → Int → KvListResult)
    (delOk : String → Bool) (st : Store) (feedId : String)
    (cursor : Option String) (limit : Option Int) : PurgeRouteResponse × Store :=
  let routeLimit : Int := match limit with | none => 250 | some n => n
  let step := purgeFeedKeysStep listFn delOk st feedId cursor (some routeLimit)
  (⟨step.1.failedKeys.isEmpty, step.1.deletedKeys.length, step.1.failedKeys.length,
    step.1.cursor, step.1.listComplete⟩, step.2)

/-- The response of the single email delete route. -/
inductive EmailDeleteResult
  | errorFeedIdRequired
  | errorCaught
  | success (emailKey feedId : String)
deriving DecidableEq, Repr

/-- `POST /emails/:emailKey/delete`: requires a non-empty `feedId` query
parameter, then deletes the given store key unconditionally, and afterwards
filters the key out of that feed's metadata record when one exists.  A
rejected backend delete is caught and answered as an error. -/
def deleteEmailRoute (delOk : String → Bool) (st : Store) (emailKey : String)
    (feedId : Option String) (md : Option FeedMetadata) :
    EmailDeleteResult × Store × Option FeedMetadata :=
  match feedId with
  | none => (.errorFeedIdRequired, st, md)
  | some fid =>
    if fid = "" then (.errorFeedIdRequired, st, md)
    else
      let r := kvDelete delOk st emailKey
      if !r.1 then (.errorCaught, r.2, md)
      else
        let md' := md.map (fun m => FeedMetadata.mk
          (m.emails.filter (fun e => e.key ≠ emailKey)))
        (.success emailKey fid, r.2, md')

/-- The response of the bulk email delete route in its JSON branch. -/
inductive BulkEmailsResponse
  | errorFeedNotFound
  | errorNoSelection
  | errorTooMany
  | success (ok : Bool) (deletedEmailKeys failedEmailKeys : List String)
deriving DecidableEq, Repr

/-- `POST /feeds/:feedId/emails/bulk-delete`, JSON branch: requires the
feed's metadata record; de-duplicates the non-empty requested keys, rejects
an empty selection (400) and more than 250 keys (413); keeps as candidates
only the requested keys present in the metadata index, deletes the
candidates through the pool at concurrency 35, rewrites the metadata record
without the deleted keys, and answers with the `deletedEmailKeys` /
`failedEmailKeys` pair. -/
def bulkDeleteEmailsJson (delOk : String → Bool) (st : Store)
    (md : Option FeedMetadata) (rawEmailKeys : List String) :
    BulkEmailsResponse × Store × Option FeedMetadata :=
  match md with
  | none => (.errorFeedNotFound, st, none)
  | some feedMetadata =>
    let allowedKeys := feedMetadata.emails.map (fun email => email.key)
    let emailKeys := jsSetDedup (rawEmailKeys.filter nonEmptyStr)
    if emailKeys.isEmpty then (.errorNoSelection, st, some feedMetadata)
    else if emailKeys.length > 250 then (.errorTooMany, st, some feedMetadata)
    else
      let candidates := emailKeys.filter (fun key => decide (key ∈ allowedKeys))
      let r := deleteKeysWithConcurrency delOk st candidates 35
      let deletedOk := r.1
      let failedEmailKeys := r.2.1
      let newMetadata := FeedMetadata.mk
        (feedMetadata.emails.filter (fun email => decide (email.key ∉ deletedOk)))
      (.success failedEmailKeys.isEmpty deletedOk failedEmailKeys, r.2.2,
        some newMetadata)

theorem nonEmptyStr_iff (s : String) : nonEmptyStr s = true ↔ s ≠ "" := by
  simp [nonEmptyStr]

theorem mem_jsSetDedupAux (seen : List String) (l : List String) (x : String) :
    x ∈ jsSetDedupAux seen l ↔ x ∈ l ∧ x ∉ seen := by
  induction l generalizing seen with
  | nil => simp [jsSetDedupAux]
  | cons k rest ih =>
    by_cases hk : k ∈ seen
    · simp only [jsSetDedupAux, if_pos hk, ih, List.mem_cons]
      constructor
      · rintro ⟨hx, hs⟩; exact ⟨Or.inr hx, hs⟩
      · rintro ⟨hx | hx, hs⟩
        · exact absurd (hx ▸ hk) hs
        · exact ⟨hx, hs⟩
    · simp only [jsSetDedupAux, if_neg hk, List.mem_cons, ih]
      constructor
      · rintro (rfl | ⟨hx, hs⟩)
        · exact ⟨Or.inl rfl, hk⟩
        · exact ⟨Or.inr hx, fun h => hs (Or.inr h)⟩
      · rintro ⟨rfl | hx, hs⟩
        · exact Or.inl rfl
        · by_cases hxk : x = k
          · exact Or.inl hxk
          · exact Or.inr ⟨hx, fun h => h.elim hxk hs⟩

theorem mem_jsSetDedup (l : List String) (x : String) :
    x ∈ jsSetDedup l ↔ x ∈ l := by
  simp [jsSetDedup, mem_jsSetDedupAux]

theorem chunkListGo_flatten (fuel step : Nat) (l : List String)
    (hstep : 1 ≤ step) (hfuel : l.length ≤ fuel) :
    (chunkListGo fuel step l).flatten = l := by
  induction fuel generalizing l with
  | zero =>
    have : l = [] := List.length_eq_zero.mp (Nat.le_zero.mp hfuel)
    subst this; simp [chunkListGo]
  | succ n ih =>
    cases l with
    | nil => simp [chunkListGo]
    | cons x xs =>
      simp only [chunkListGo, List.flatten_cons]
      rw [ih]
      · exact List.take_append_drop _ _
      · rw [List.length_drop]
        simp only [List.length_cons] at hfuel ⊢
        omega

theorem chunkListGo_chunk_length (fuel step : Nat) (l : List String)
    (hstep : 1 ≤ step) (hfuel : l.length ≤ fuel) :
    ∀ b ∈ chunkListGo fuel step l, b.length ≤ step := by
  induction fuel generalizing l with
  | zero =>
    have : l = [] := List.length_eq_zero.mp (Nat.le_zero.mp hfuel)
    subst this; simp [chunkListGo]
  | succ n ih =>
    cases l with
    | nil => simp [chunkListGo]
    | cons x xs =>
      intro b hb
      simp only [chunkListGo, List.mem_cons] at hb
      rcases hb with rfl | hb
      · simp [List.length_take_le]
      · refine ih _ ?_ b hb
        rw [List.length_drop]
        simp only [List.length_cons] at hfuel ⊢
        omega

theorem chunkList_flatten (step : Nat) (l : List String) (hstep : 1 ≤ step) :
    (chunkList step l).flatten = l :=
  chunkListGo_flatten _ _ _ hstep le_rfl

theorem chunkList_chunk_length (step : Nat) (l : List String) (hstep : 1 ≤ step) :
    ∀ b ∈ chunkList step l, b.length ≤ step :=
  chunkListGo_chunk_length _ _ _ hstep le_rfl

theorem runKeyDeletes_ok (delOk : String → Bool) (keys : List String) (st : Store) :
    (runKeyDeletes delOk keys st).1 = keys.filter (fun k => delOk k) := by
  induction keys generalizing st with
  | nil => simp [runKeyDeletes]
  | cons k rest ih =>
    simp only [runKeyDeletes, kvDelete]
    by_cases h : delOk k <;> simp [h, ih]

theorem runKeyDeletes_failed (delOk : String → Bool) (keys : List String) (st : Store) :
    (runKeyDeletes delOk keys st).2.1 = keys.filter (fun k => !delOk k) := by
  induction keys generalizing st with
  | nil => simp [runKeyDeletes]
  | cons k rest ih =>
    simp only [runKeyDeletes, kvDelete]
    by_cases h : delOk k <;> simp [h, ih]

theorem Store.get_del_ne (s : Store) (k x : String) (hx : x ≠ k) :
    Store.get (Store.del s k) x = Store.get s x := by
  induction s with
  | nil => rfl
  | cons p rest ih =>
    by_cases hp : p.1 = k
    · have hpx : ¬ p.1 = x := fun h => hx (h ▸ hp)
      calc Store.get (Store.del (p :: rest) k) x
          = Store.get (Store.del rest k) x := by simp only [Store.del, if_pos hp]
        _ = Store.get rest x := ih
        _ = Store.get (p :: rest) x := by simp only [Store.get, if_neg hpx]
    · calc Store.get (Store.del (p :: rest) k) x
          = (if p.1 = x then some p.2 else Store.get (Store.del rest k) x) := by
            simp only [Store.del, if_neg hp, Store.get]
        _ = (if p.1 = x then some p.2 else Store.get rest x) := by rw [ih]
        _ = Store.get (p :: rest) x := by simp only [Store.get]

theorem Store.get_del_none (s : Store) (k : String) :
    Store.get (Store.del s k) k = none := by
  induction s with
  | nil => rfl
  | cons p rest ih =>
    by_cases hp : p.1 = k
    · simp only [Store.del, if_pos hp]
      exact ih
    · simp only [Store.del, if_neg hp, Store.get]
      exact ih

/-- A key that is never passed to the backend keeps its stored value. -/
theorem runKeyDeletes_get_not_mem (delOk : String → Bool) (keys : List String)
    (st : Store) (x : String) (hx : x ∉ keys) :
    Store.get (runKeyDeletes delOk keys st).2.2 x = Store.get st x := by
  induction keys generalizing st with
  | nil => rfl
  | cons k rest ih =>
    have hxk : x ≠ k := fun h => hx (h ▸ List.mem_cons_self k rest)
    have hxr : x ∉ rest := fun h => hx (List.mem_cons_of_mem _ h)
    by_cases h : delOk k
    · simp only [runKeyDeletes, kvDelete, h, if_pos, if_true]
      rw [ih _ hxr]
      exact Store.get_del_ne _ _ _ hxk
    · simp only [runKeyDeletes, kvDelete, h]
      simp only [Bool.false_eq_true, if_false]
      exact ih _ hxr

/-- A key whose delete fulfils is absent from the store afterwards. -/
theorem runKeyDeletes_get_deleted (delOk : String → Bool) (keys : List String)
    (st : Store) (x : String) (hx : x ∈ keys) (hok : delOk x = true) :
    Store.get (runKeyDeletes delOk keys st).2.2 x = none := by
  induction keys generalizing st with
  | nil => cases hx
  | cons k rest ih =>
    rcases List.mem_cons.mp hx with rfl | hxr
    · simp only [runKeyDeletes, kvDelete, hok, if_true]
      by_cases hrest : x ∈ rest
      · exact ih _ hrest
      · rw [runKeyDeletes_get_not_mem _ _ _ _ hrest]
        exact Store.get_del_none _ _
    · by_cases h : delOk k
      · simp only [runKeyDeletes, kvDelete, h, if_true]
        exact ih _ hxr
      · simp only [runKeyDeletes, kvDelete, h]
        simp only [Bool.false_eq_true, if_false]
        exact ih _ hxr

theorem deleteFeedFastSt_fst (delOk : String → Bool) (st : Store) (feedId : String) :
    (deleteFeedFastSt delOk st feedId).1 = deleteFeedFastOk delOk feedId := by
  simp only [deleteFeedFastSt, deleteFeedFastOk, kvDelete]
  by_cases h1 : delOk (feedConfigKey feedId) <;>
    by_cases h2 : delOk (feedMetadataKeyOf feedId) <;> simp [h1, h2]

theorem runFastDeletes_fst (delOk : String → Bool) (ids : List String) (st : Store) :
    (runFastDeletes delOk ids st).1 =
      ids.map (fun feedId => (feedId, deleteFeedFastOk delOk feedId)) := by
  induction ids generalizing st with
  | nil => rfl
  | cons feedId rest ih =>
    simp only [runFastDeletes, List.map_cons, deleteFeedFastSt_fst]
    rw [ih]

theorem mem_filter_ne_empty (l : List String) (x : String) :
    x ∈ l.filter nonEmptyStr ↔ x ∈ l ∧ x ≠ "" := by
  simp [List.mem_filter, nonEmptyStr_iff]

theorem mem_parsed (rawIds : List String) (x : String) :
    x ∈ jsSetDedup (rawIds.filter nonEmptyStr) ↔ x ∈ rawIds ∧ x ≠ "" := by
  rw [mem_jsSetDedup, mem_filter_ne_empty]

theorem deletionBatches_flatten (keys : List String) (concurrency : Nat) :
    (deletionBatches keys concurrency).flatten
      = jsSetDedup (keys.filter nonEmptyStr) :=
  chunkList_flatten _ _ (le_max_left 1 concurrency)

theorem mem_deletionBatches_flatten (keys : List String) (concurrency : Nat)
    (x : String) :
    x ∈ (deletionBatches keys concurrency).flatten ↔ x ∈ keys ∧ x ≠ "" := by
  rw [deletionBatches_flatten, mem_parsed]

theorem deleteKeysWithConcurrency_ok (delOk : String → Bool) (st : Store)
    (keys : List String) (concurrency : Nat) :
    (deleteKeysWithConcurrency delOk st keys concurrency).1
      = (jsSetDedup (keys.filter nonEmptyStr)).filter (fun k => delOk k) := by
  rw [deleteKeysWithConcurrency, runKeyDeletes_ok, deletionBatches_flatten]

theorem deleteKeysWithConcurrency_failed (delOk : String → Bool) (st : Store)
    (keys : List String) (concurrency : Nat) :
    (deleteKeysWithConcurrency delOk st keys concurrency).2.1
      = (jsSetDedup (keys.filter nonEmptyStr)).filter (fun k => !delOk k) := by
  rw [deleteKeysWithConcurrency, runKeyDeletes_failed, deletionBatches_flatten]

theorem deleteKeysWithConcurrency_get_not_mem (delOk : String → Bool) (st : Store)
    (keys : List String) (concurrency : Nat) (x : String) (hx : x ∉ keys) :
    Store.get (deleteKeysWithConcurrency delOk st keys concurrency).2.2 x
      = Store.get st x := by
  rw [deleteKeysWithConcurrency]
  refine runKeyDeletes_get_not_mem _ _ _ _ (fun h => hx ?_)
  exact ((mem_deletionBatches_flatten _ _ _).mp h).1

theorem foldr_max_le (l : List Nat) (n : Nat) (h : ∀ x ∈ l, x ≤ n) :
    l.foldr max 0 ≤ n := by
  induction l with
  | nil => exact Nat.zero_le n
  | cons a rest ih =>
    simp only [List.foldr]
    exact max_le (h a (List.mem_cons_self a rest))
      (ih (fun x hx => h x (List.mem_cons_of_mem _ hx)))

theorem mem_map_fst_filter (p : Bool → Bool) (g : String → Bool)
    (l : List String) (x : String) :
    (x ∈ ((l.map (fun id => (id, g id))).filter
        (fun r => p r.2)).map (fun r => r.1))
      ↔ x ∈ l ∧ p (g x) = true := by
  constructor
  · intro hx
    rcases List.mem_map.mp hx with ⟨r, hr, hrx⟩
    rcases List.mem_filter.mp hr with ⟨hrm, hrp⟩
    rcases List.mem_map.mp hrm with ⟨a, ha, hra⟩
    subst hra
    cases hrx
    exact ⟨ha, hrp⟩
  · rintro ⟨hx, hp⟩
    refine List.mem_map.mpr ⟨(x, g x), List.mem_filter.mpr ⟨?_, hp⟩, rfl⟩
    exact List.mem_map.mpr ⟨x, hx, rfl⟩

/-- The ids the bulk feed delete routes classify as succeeded are the
parsed ids whose two control-key deletes both fulfilled. -/
theorem bulk_okIds_mem (delOk : String → Bool) (st : Store) (ids : List String)
    (x : String) :
    (x ∈ ((runFastDeletes delOk ((chunkList 10 ids).flatten) st).1.filter
        (fun r => r.2)).map (fun r => r.1))
      ↔ x ∈ ids ∧ deleteFeedFastOk delOk x = true := by
  rw [runFastDeletes_fst, chunkList_flatten _ _ (by norm_num)]
  exact mem_map_fst_filter (fun b => b) _ _ _

theorem bulk_failedIds_mem (delOk : String → Bool) (st : Store) (ids : List String)
    (x : String) :
    (x ∈ ((runFastDeletes delOk ((chunkList 10 ids).flatten) st).1.filter
        (fun r => !r.2)).map (fun r => r.1))
      ↔ x ∈ ids ∧ deleteFeedFastOk delOk x = false := by
  rw [runFastDeletes_fst, chunkList_flatten _ _ (by norm_num)]
  have := mem_map_fst_filter (fun b => !b) (fun id => deleteFeedFastOk delOk id) ids x
  rw [this]
  constructor
  · rintro ⟨h1, h2⟩
    exact ⟨h1, by revert h2; cases deleteFeedFastOk delOk x <;> simp⟩
  · rintro ⟨h1, h2⟩
    refine ⟨h1, ?_⟩
    rw [h2]
    rfl

theorem removeFeedsFromListBulk_removed_mem (feedList : FeedList)
    (feedIds : List String) (x : String) :
    (x ∈ (removeFeedsFromListBulk feedList feedIds).1)
      ↔ x ∈ feedList.feeds.map (fun f => f.id) ∧ x ∈ feedIds ∧ x ≠ "" := by
  rw [removeFeedsFromListBulk]
  have hmem : ∀ y : String,
      y ∈ jsSetDedup (feedIds.filter nonEmptyStr) ↔ y ∈ feedIds ∧ y ≠ "" :=
    fun y => mem_parsed feedIds y
  by_cases h1 : (jsSetDedup (feedIds.filter nonEmptyStr)).isEmpty
  · simp only [h1, if_true, List.not_mem_nil, false_iff]
    rintro ⟨-, hx2, hx3⟩
    rw [List.isEmpty_iff] at h1
    have := (hmem x).mpr ⟨hx2, hx3⟩
    rw [h1] at this
    cases this
  · simp only [h1, if_false]
    have hfil : ∀ y : String,
        (y ∈ (feedList.feeds.filter
            (fun f => decide (f.id ∈ jsSetDedup (feedIds.filter nonEmptyStr)))).map
          (fun f => f.id))
        ↔ y ∈ feedList.feeds.map (fun f => f.id) ∧ y ∈ feedIds ∧ y ≠ "" := by
      intro y
      constructor
      · intro hy
        rcases List.mem_map.mp hy with ⟨f, hf, rfl⟩
        rcases List.mem_filter.mp hf with ⟨hf1, hf2⟩
        rw [decide_eq_true_eq, hmem] at hf2
        exact ⟨List.mem_map.mpr ⟨f, hf1, rfl⟩, hf2⟩
      · rintro ⟨hy1, hy2, hy3⟩
        rcases List.mem_map.mp hy1 with ⟨f, hf, rfl⟩
        refine List.mem_map.mpr ⟨f, List.mem_filter.mpr ⟨hf, ?_⟩, rfl⟩
        rw [decide_eq_true_eq, hmem]
        exact ⟨hy2, hy3⟩
    by_cases h2 : ((feedList.feeds.filter
        (fun f => decide (f.id ∈ jsSetDedup (feedIds.filter nonEmptyStr)))).map
          (fun f => f.id)).isEmpty
    · rw [if_pos h2]
      constructor
      · intro hx
        exact absurd hx (List.not_mem_nil x)
      · intro hx
        have := (hfil x).mpr hx
        rw [List.isEmpty_iff] at h2
        rw [h2] at this
        cases this
    · rw [if_neg h2]
      exact hfil x

/-- An entry whose id is not among the requested ids survives the bulk
feed-list rewrite. -/
theorem removeFeedsFromListBulk_kept (feedList : FeedList) (feedIds : List String)
    (f : FeedListItem) (hf : f ∈ feedList.feeds) (hid : f.id ∉ feedIds) :
    f ∈ (removeFeedsFromListBulk feedList feedIds).2.feeds := by
  rw [removeFeedsFromListBulk]
  by_cases h1 : (jsSetDedup (feedIds.filter nonEmptyStr)).isEmpty
  · simp only [h1, if_true]
    exact hf
  · simp only [h1, if_false]
    by_cases h2 : ((feedList.feeds.filter
        (fun f => decide (f.id ∈ jsSetDedup (feedIds.filter nonEmptyStr)))).map
          (fun f => f.id)).isEmpty
    · simp only [h2, if_true]
      exact hf
    · simp only [h2, if_false]
      refine List.mem_filter.mpr ⟨hf, ?_⟩
      have : f.id ∉ jsSetDedup (feedIds.filter nonEmptyStr) := by
        intro h
        exact hid ((mem_parsed _ _).mp h).1
      simp [this]

/-- C1, counterexample: a bulk email delete of the key `feed:b:2`, which is
absent from the target feed's metadata index but present in the store under
another feed's prefix, does not delete the key — but it also does not
report it in `failedEmailKeys`: the response is `ok` with both lists empty,
contradicting the claim that such a key must be reported as failed. -/
theorem c1_counterexample :
    (bulkDeleteEmailsJson (fun _ => true) [("feed:b:2", "v")]
        (some ⟨[⟨"feed:a:1", "s", 0⟩]⟩) ["feed:b:2"]).1
      = .success true [] [] ∧
    Store.get (bulkDeleteEmailsJson (fun _ => true) [("feed:b:2", "v")]
        (some ⟨[⟨"feed:a:1", "s", 0⟩]⟩) ["feed:b:2"]).2.1 "feed:b:2"
      = some "v" := by decide

/-- C1 (amended): in a bulk email delete, a requested key that is not in
the target feed's metadata index is not deleted from the store — its stored
value is untouched — and it is reported in neither `deletedEmailKeys` nor
`failedEmailKeys` of the response (it is silently dropped), even if the key
exists in the store under a different feed's prefix. -/
theorem c1_email_scoping (delOk : String → Bool) (st : Store)
    (feedMetadata : FeedMetadata) (rawEmailKeys : List String) (k : String)
    (hk : k ∉ feedMetadata.emails.map (fun email => email.key)) :
    Store.get (bulkDeleteEmailsJson delOk st (some feedMetadata) rawEmailKeys).2.1 k
        = Store.get st k ∧
    ∀ ok deleted failed,
      (bulkDeleteEmailsJson delOk st (some feedMetadata) rawEmailKeys).1
          = .success ok deleted failed →
        k ∉ deleted ∧ k ∉ failed := by
  have hcand : k ∉ (jsSetDedup (rawEmailKeys.filter nonEmptyStr)).filter
      (fun key => decide (key ∈ feedMetadata.emails.map (fun email => email.key))) := by
    intro h
    rcases List.mem_filter.mp h with ⟨-, h2⟩
    exact hk (of_decide_eq_true h2)
  simp only [bulkDeleteEmailsJson]
  split_ifs with h1 h2
  · exact ⟨rfl, fun ok deleted failed h => by cases h⟩
  · exact ⟨rfl, fun ok deleted failed h => by cases h⟩
  · constructor
    · exact deleteKeysWithConcurrency_get_not_mem _ _ _ _ _ hcand
    · intro ok deleted failed h
      injection h with h1 h2 h3
      subst h2; subst h3
      constructor
      · intro hmem
        rw [deleteKeysWithConcurrency_ok] at hmem
        rcases List.mem_filter.mp hmem with ⟨hm, -⟩
        exact hcand (((mem_parsed _ _).mp hm).1)
      · intro hmem
        rw [deleteKeysWithConcurrency_failed] at hmem
        rcases List.mem_filter.mp hmem with ⟨hm, -⟩
        exact hcand (((mem_parsed _ _).mp hm).1)

/-- C1, witness: the amended scoping guard applied at the counterexample
input. -/
theorem c1_email_scoping_witness :
    Store.get (bulkDeleteEmailsJson (fun _ => true) [("feed:b:2", "v")]
        (some ⟨[⟨"feed:a:1", "s", 0⟩]⟩) ["feed:b:2"]).2.1 "feed:b:2"
      = Store.get [("feed:b:2", "v")] "feed:b:2" :=
  (c1_email_scoping (fun _ => true) [("feed:b:2", "v")]
    ⟨[⟨"feed:a:1", "s", 0⟩]⟩ ["feed:b:2"] "feed:b:2" (by decide)).1

/-- C2, counterexample: the form-data branch of bulk feed delete accepts 51
distinct feed ids, deletes all of them (the feed list is emptied) and
answers with the deleted count instead of a "too large" rejection. -/
theorem c2_counterexample :
    (bulkDeleteFeedsForm (fun _ => true) []
        ⟨(List.range 51).map (fun n => ⟨"f" ++ toString n, "t", none⟩)⟩
        ((List.range 51).map (fun n => "f" ++ toString n))).1
      = .redirectDeleted 51 ∧
    (bulkDeleteFeedsForm (fun _ => true) []
        ⟨(List.range 51).map (fun n => ⟨"f" ++ toString n, "t", none⟩)⟩
        ((List.range 51).map (fun n => "f" ++ toString n))).2.2.feeds
      = [] := by decide

/-- C2 (amended): the 50-id cap is enforced only by the JSON branch of the
bulk feed delete endpoint: there, more than 50 de-duplicated ids yield the
distinct "too large" rejection with the store and the feed list unchanged,
and at most 50 non-empty de-duplicated ids are all processed (an id is
reported failed exactly when its fast delete failed); the form-data branch
enforces no cap and always answers a non-empty selection with a deleted
count. -/
theorem c2_bulk_cap (delOk : String → Bool) (st : Store) (feedList : FeedList)
    (rawIds : List String) :
    ((jsSetDedup (rawIds.filter nonEmptyStr)).length > 50 →
        bulkDeleteFeedsJson delOk st feedList rawIds
          = (.errorTooMany, st, feedList)) ∧
    ((jsSetDedup (rawIds.filter nonEmptyStr)).isEmpty = false →
      (jsSetDedup (rawIds.filter nonEmptyStr)).length ≤ 50 →
        ∃ deleted failed,
          (bulkDeleteFeedsJson delOk st feedList rawIds).1
              = .success failed.isEmpty deleted failed ∧
          ∀ x, x ∈ failed ↔ x ∈ jsSetDedup (rawIds.filter nonEmptyStr)
              ∧ deleteFeedFastOk delOk x = false) ∧
    ((jsSetDedup (rawIds.filter nonEmptyStr)).isEmpty = false →
        ∃ count, (bulkDeleteFeedsForm delOk st feedList rawIds).1
          = .redirectDeleted count) := by
  refine ⟨?_, ?_, ?_⟩
  · intro h51
    have hne : ¬ (jsSetDedup (rawIds.filter nonEmptyStr)).isEmpty = true := by
      rw [List.isEmpty_iff]
      intro h
      rw [h] at h51
      simp at h51
    simp only [bulkDeleteFeedsJson]
    rw [if_neg hne, if_pos h51]
  · intro hne h50
    have hne' : ¬ (jsSetDedup (rawIds.filter nonEmptyStr)).isEmpty = true := by
      rw [hne]; simp
    have hle : ¬ (jsSetDedup (rawIds.filter nonEmptyStr)).length > 50 := by omega
    simp only [bulkDeleteFeedsJson]
    rw [if_neg hne', if_neg hle]
    exact ⟨_, _, rfl, fun x => bulk_failedIds_mem delOk st _ x⟩
  · intro hne
    have hne' : ¬ (jsSetDedup (rawIds.filter nonEmptyStr)).isEmpty = true := by
      rw [hne]; simp
    simp only [bulkDeleteFeedsForm]
    rw [if_neg hne']
    exact ⟨_, rfl⟩

/-- C2, witness: the JSON branch rejects 51 distinct ids with the "too
large" response and no state change. -/
theorem c2_bulk_cap_witness :
    bulkDeleteFeedsJson (fun _ => true) [] ⟨[]⟩
        ((List.range 51).map (fun n => "f" ++ toString n))
      = (.errorTooMany, [], ⟨[]⟩) :=
  (c2_bulk_cap (fun _ => true) [] ⟨[]⟩
    ((List.range 51).map (fun n => "f" ++ toString n))).1 (by decide)

/-- C3, counterexample: with an all-fulfilling backend, deleting feed `f`
(present in the store) twice returns `true` both times, and in particular
the second call returns `true` although the feed no longer exists — so the
returned boolean is not "whether the feed existed", and the second of two
consecutive deletes does not yield `existed=false`. -/
theorem c3_counterexample :
    ((deleteFeedFastSt (fun _ => true) [("feed:f:config", "cfg")] "f").1 = true ∧
      feedExists [("feed:f:config", "cfg")] "f" = true) ∧
    ((deleteFeedFastSt (fun _ => true)
          (deleteFeedFastSt (fun _ => true) [("feed:f:config", "cfg")] "f").2 "f").1
        = true ∧
      feedExists
          (deleteFeedFastSt (fun _ => true) [("feed:f:config", "cfg")] "f").2 "f"
        = false) := by decide

/-- C3 (amended): `deleteFeedFast` returns true exactly when both
control-key deletions fulfilled, independent of whether the feed existed
(deleting an absent key is a fulfilled no-op); consequently a second
identical call returns the same boolean as the first, with no error. -/
theorem c3_fast_delete_result (delOk : String → Bool) (st : Store) (feedId : String) :
    (deleteFeedFastSt delOk st feedId).1 = deleteFeedFastOk delOk feedId ∧
    (deleteFeedFastSt delOk (deleteFeedFastSt delOk st feedId).2 feedId).1
      = (deleteFeedFastSt delOk st feedId).1 := by
  refine ⟨deleteFeedFastSt_fst _ _ _, ?_⟩
  rw [deleteFeedFastSt_fst, deleteFeedFastSt_fst]

/-- C4, counterexample: a bulk feed delete of the single id `x`, which is
not in the global feed list, succeeds at its control-key deletes, so it is
not in `failedFeedIds` — but the list rewrite finds no entry to remove, so
it is not in `deletedFeedIds` either: the union of the two response sets is
empty and does not cover the de-duplicated input `[x]`. -/
theorem c4_counterexample :
    (bulkDeleteFeedsJson (fun _ => true) [] ⟨[]⟩ ["x"]).1 = .success true [] [] ∧
    jsSetDedup (["x"].filter nonEmptyStr) = ["x"] := by decide

/-- C4 (amended): in a successful bulk feed delete response the two sets
are disjoint, `failedFeedIds` is exactly the de-duplicated input ids whose
control-key deletions failed, and `deletedFeedIds` is exactly the
de-duplicated input ids whose control-key deletions succeeded *and* that
were present in the global feed list — an id whose deletions succeed but
that has no feed-list entry appears in neither set, so the union can be a
strict subset of the input. -/
theorem c4_partition (delOk : String → Bool) (st : Store) (feedList : FeedList)
    (rawIds : List String) (ok : Bool) (deleted failed : List String)
    (h : (bulkDeleteFeedsJson delOk st feedList rawIds).1
        = .success ok deleted failed) :
    (∀ x, x ∈ failed ↔ x ∈ jsSetDedup (rawIds.filter nonEmptyStr)
        ∧ deleteFeedFastOk delOk x = false) ∧
    (∀ x, x ∈ deleted ↔ x ∈ jsSetDedup (rawIds.filter nonEmptyStr)
        ∧ deleteFeedFastOk delOk x = true
        ∧ x ∈ feedList.feeds.map (fun f => f.id)) ∧
    (∀ x, ¬(x ∈ deleted ∧ x ∈ failed)) := by
  simp only [bulkDeleteFeedsJson] at h
  split_ifs at h with h1 h2
  · cases h
    refine ⟨fun x => bulk_failedIds_mem delOk st _ x, ?_, ?_⟩
    · intro x
      rw [removeFeedsFromListBulk_removed_mem]
      constructor
      · rintro ⟨hx1, hx2, -⟩
        rcases (bulk_okIds_mem delOk st _ x).mp hx2 with ⟨hm, hok⟩
        exact ⟨hm, hok, hx1⟩
      · rintro ⟨hm, hok, hx1⟩
        refine ⟨hx1, (bulk_okIds_mem delOk st _ x).mpr ⟨hm, hok⟩, ?_⟩
        exact ((mem_parsed _ _).mp hm).2
    · rintro x ⟨hxd, hxf⟩
      rcases (bulk_failedIds_mem delOk st _ x).mp hxf with ⟨-, hfx⟩
      rcases (bulk_okIds_mem delOk st _ x).mp
        (((removeFeedsFromListBulk_removed_mem _ _ _).mp hxd).2.1) with ⟨-, hox⟩
      rw [hox] at hfx
      cases hfx

/-- C4, witness: the partition characterisation applied at a concrete
input whose only id fails its fast delete. -/
theorem c4_partition_witness :
    ("a" ∈ (["a"] : List String)
        ↔ "a" ∈ jsSetDedup (["a"].filter nonEmptyStr)
          ∧ deleteFeedFastOk (fun _ => false) "a" = false) :=
  (c4_partition (fun _ => false) [] ⟨[⟨"a", "t", none⟩]⟩ ["a"]
    false [] ["a"] (by decide)).1 "a"

/-- C5, counterexample: with concurrency 0 and the single key `a`, the
Bounded Deletion Pool still runs one deletion at a time (the effective
stride is `max(1, ...) = 1`), so the observed peak of simultaneously
in-flight deletions is 1, which exceeds the configured ceiling 0 —
"for every concurrency value" is too strong. -/
theorem c5_counterexample :
    peakInFlight ["a"] 0 = 1 ∧ ¬ peakInFlight ["a"] 0 ≤ 0 := by decide

/-- C5 (amended): for every key list and every concurrency value of at
least 1, the pool first de-duplicates the (truthy) keys, the concatenation
of the consecutive batches is exactly that de-duplicated list, every batch
has size at most the concurrency ceiling, and the peak number of
simultaneously in-flight deletions never exceeds the ceiling; for values
below 1 the effective ceiling is 1. -/
theorem c5_bounded_pool (keys : List String) (concurrency : Nat)
    (hc : 1 ≤ concurrency) :
    (deletionBatches keys concurrency).flatten
        = jsSetDedup (keys.filter nonEmptyStr) ∧
    (∀ b ∈ deletionBatches keys concurrency, b.length ≤ concurrency) ∧
    peakInFlight keys concurrency ≤ concurrency := by
  have hmax : max 1 concurrency = concurrency := max_eq_right hc
  have hlen : ∀ b ∈ deletionBatches keys concurrency, b.length ≤ concurrency := by
    intro b hb
    rw [deletionBatches] at hb
    have := chunkList_chunk_length (max 1 concurrency) _ (le_max_left 1 _) b hb
    rwa [hmax] at this
  refine ⟨deletionBatches_flatten _ _, hlen, ?_⟩
  apply foldr_max_le
  intro x hx
  rcases List.mem_map.mp hx with ⟨b, hb, rfl⟩
  exact hlen b hb

/-- C5, witness: the pool shape at three keys with a duplicate and
concurrency 2. -/
theorem c5_bounded_pool_witness :
    (deletionBatches ["a", "b", "a", ""] 2).flatten
      = jsSetDedup (["a", "b", "a", ""].filter nonEmptyStr) :=
  (c5_bounded_pool ["a", "b", "a", ""] 2 (by decide)).1

/-- C6, counterexample: the inbound email handler prepends a new entry to a
metadata index that already holds 50 entries and stores 51 entries back —
the 50-entry bound is not preserved by every operation that adds an email
to the index. -/
theorem c6_counterexample :
    (inboundMetadataUpdate
        (some ⟨(List.range 50).map (fun n => ⟨"k" ++ toString n, "s", n⟩)⟩)
        ⟨"new", "s", 99⟩).emails.length = 51 ∧
    ¬ (inboundMetadataUpdate
        (some ⟨(List.range 50).map (fun n => ⟨"k" ++ toString n, "s", n⟩)⟩)
        ⟨"new", "s", 99⟩).emails.length ≤ 50 := by decide

/-- C6 (amended): `updateFeedMetadata` in `src/utils/storage.ts` prepends
the new entry and trims to 50, so its result never exceeds 50 entries and
is most-recent-first; but the inbound email handler's metadata update
prepends without trimming, so that path can grow the index beyond 50. -/
theorem c6_metadata_cap (md : Option FeedMetadata) (em : EmailMetadata) :
    (updateFeedMetadata md em).emails.length ≤ 50 ∧
    (updateFeedMetadata md em).emails.head? = some em ∧
    (inboundMetadataUpdate md em).emails = em :: (md.getD ⟨[]⟩).emails := by
  refine ⟨?_, ?_, rfl⟩
  · simp only [updateFeedMetadata]
    split_ifs with h
    · rw [List.length_take]
      omega
    · simp only [List.length_cons] at h ⊢
      omega
  · simp only [updateFeedMetadata]
    split_ifs with h
    · rfl
    · rfl

/-- C7: when the listing of the feed's prefix returns no keys and reports
completion (the state after `isComplete` was already reached), a further
purge step returns `ok`, `deletedCount = 0`, `failedCount = 0` and
`listComplete = true`, with the store unchanged and no error. -/
theorem c7_purge_idempotent (listFn : String → Option String → Int → KvListResult)
    (delOk : String → Bool) (st : Store) (feedId : String)
    (cursor : Option String) (limit : Option Int)
    (h : ∀ cur lim, (listFn (feedKeyPfx feedId) cur lim).keys = []
        ∧ (listFn (feedKeyPfx feedId) cur lim).listComplete = true) :
    (purgeRoute listFn delOk st feedId cursor limit).1.ok = true ∧
    (purgeRoute listFn delOk st feedId cursor limit).1.deletedCount = 0 ∧
    (purgeRoute listFn delOk st feedId cursor limit).1.failedCount = 0 ∧
    (purgeRoute listFn delOk st feedId cursor limit).1.listComplete = true ∧
    (purgeRoute listFn delOk st feedId cursor limit).2 = st := by
  obtain ⟨hk, hc⟩ := h (effectiveCursor cursor)
    (effectiveLimit (some (match limit with | none => 250 | some n => n)))
  simp only [purgeRoute, purgeFeedKeysStep, hk, hc]
  simp [deleteKeysWithConcurrency, deletionBatches, jsSetDedup, jsSetDedupAux,
    chunkList, chunkListGo, runKeyDeletes]

/-- C7, witness: the idempotent purge step at an always-complete empty
listing. -/
theorem c7_purge_idempotent_witness :
    (purgeRoute (fun _ _ _ => ⟨[], none, true⟩) (fun _ => true) [] "f"
        none none).1.ok = true ∧
    (purgeRoute (fun _ _ _ => ⟨[], none, true⟩) (fun _ => true) [] "f"
        none none).1.deletedCount = 0 ∧
    (purgeRoute (fun _ _ _ => ⟨[], none, true⟩) (fun _ => true) [] "f"
        none none).1.failedCount = 0 ∧
    (purgeRoute (fun _ _ _ => ⟨[], none, true⟩) (fun _ => true) [] "f"
        none none).1.listComplete = true ∧
    (purgeRoute (fun _ _ _ => ⟨[], none, true⟩) (fun _ => true) [] "f"
        none none).2 = [] :=
  c7_purge_idempotent (fun _ _ _ => ⟨[], none, true⟩) (fun _ => true) [] "f"
    none none (fun _ _ => ⟨rfl, rfl⟩)

/-- C8, counterexample: a caller-supplied limit of 0 is below 1, so the
claim demands an effective limit of 1; but `options.limit || 250` treats 0
as falsy, so the step passes 250 to the store listing (observed here by a
listing stub that reports whether it received 250). -/
theorem c8_counterexample :
    effectiveLimit (some 0) = 250 ∧ ¬ effectiveLimit (some 0) = 1 ∧
    (purgeFeedKeysStep (fun _ _ lim => ⟨[], none, decide (lim = 250)⟩)
        (fun _ => true) [] "f" none (some 0)).1.listComplete = true := by decide

/-- C8 (amended): the effective page limit is
`min 1000 (max 1 (limit || 250))`: an absent limit becomes 250, a limit of
exactly 0 is falsy and also becomes 250, other limits below 1 become 1,
limits above 1000 become 1000, in-range limits pass through; the listing is
invoked at the feed's prefix with that limit and with the supplied cursor
(an absent or empty cursor starts at the beginning of the prefix). -/
theorem c8_effective_limit (listFn : String → Option String → Int → KvListResult)
    (delOk : String → Bool) (st : Store) (feedId : String)
    (cursor : Option String) (n : Int) (s : String) (hs : s ≠ "") :
    effectiveLimit none = 250 ∧
    effectiveLimit (some n)
        = (if n = 0 then 250 else if n < 1 then 1 else if n > 1000 then 1000 else n) ∧
    (purgeFeedKeysStep listFn delOk st feedId cursor (some n)).1.listComplete
        = (listFn (feedKeyPfx feedId) (effectiveCursor cursor)
            (if n = 0 then 250 else if n < 1 then 1
              else if n > 1000 then 1000 else n)).listComplete ∧
    effectiveCursor none = none ∧
    effectiveCursor (some s) = some s := by
  have hlim : effectiveLimit (some n)
      = (if n = 0 then 250 else if n < 1 then 1
          else if n > 1000 then 1000 else n) := by
    simp only [effectiveLimit]
    split_ifs <;> omega
  refine ⟨by decide, hlim, ?_, rfl, by simp [effectiveCursor, hs]⟩
  simp only [purgeFeedKeysStep, hlim]

/-- C8, witness: the clamp characterisation at the in-range limit 7 and the
cursor `c`. -/
theorem c8_effective_limit_witness :
    effectiveLimit (some 7)
      = (if (7 : Int) = 0 then 250 else if (7 : Int) < 1 then 1
          else if (7 : Int) > 1000 then 1000 else 7) :=
  (c8_effective_limit (fun _ _ _ => ⟨[], none, true⟩) (fun _ => true) [] "f"
    none 7 "c" (by decide)).2.1

/-- C9, counterexample: a bulk feed delete of feed `f` whose two control-key
deletions both fail reports `f` in `failedFeedIds` and leaves the feed's
entry in the global feed list: the bulk path does not attempt the list
removal for a feed whose config/metadata deletions failed. -/
theorem c9_counterexample :
    (bulkDeleteFeedsJson (fun _ => false) [("feed:f:config", "c")]
        ⟨[⟨"f", "t", none⟩]⟩ ["f"]).1 = .success false [] ["f"] ∧
    (bulkDeleteFeedsJson (fun _ => false) [("feed:f:config", "c")]
        ⟨[⟨"f", "t", none⟩]⟩ ["f"]).2.2 = ⟨[⟨"f", "t", none⟩]⟩ := by decide

/-- C9 (amended): the single feed delete route always attempts the global
feed-list removal, whatever the outcome of the two control-key deletions;
the bulk routes pass only the ids whose control-key deletions succeeded to
the list rewrite, so a feed whose control-key deletions failed keeps its
feed-list entry after either bulk branch. -/
theorem c9_list_removal (delOk : String → Bool) (st : Store) (feedList : FeedList)
    (feedId : String) (rawIds : List String) (f : FeedListItem)
    (hf : f ∈ feedList.feeds) (hfail : deleteFeedFastOk delOk f.id = false) :
    (deleteFeedRoute delOk st feedList feedId).2.2
        = (removeFeedsFromListBulk feedList [feedId]).2 ∧
    f ∈ (bulkDeleteFeedsJson delOk st feedList rawIds).2.2.feeds ∧
    f ∈ (bulkDeleteFeedsForm delOk st feedList rawIds).2.2.feeds := by
  have hnotok : ∀ (s : Store),
      f.id ∉ ((runFastDeletes delOk
          ((chunkList 10 (jsSetDedup (rawIds.filter nonEmptyStr))).flatten) s).1.filter
        (fun r => r.2)).map (fun r => r.1) := by
    intro s hmem
    rcases (bulk_okIds_mem delOk s _ f.id).mp hmem with ⟨-, hok⟩
    rw [hfail] at hok
    cases hok
  refine ⟨rfl, ?_, ?_⟩
  · simp only [bulkDeleteFeedsJson]
    split_ifs with h1 h2
    · exact hf
    · exact hf
    · exact removeFeedsFromListBulk_kept _ _ _ hf (hnotok st)
  · simp only [bulkDeleteFeedsForm]
    split_ifs with h1
    · exact hf
    · exact removeFeedsFromListBulk_kept _ _ _ hf (hnotok st)

/-- C9, witness: the list-removal semantics at a concrete failing feed. -/
theorem c9_list_removal_witness :
    (⟨"f", "t", none⟩ : FeedListItem)
      ∈ (bulkDeleteFeedsJson (fun _ => false) [("feed:f:config", "c")]
          ⟨[⟨"f", "t", none⟩]⟩ ["f"]).2.2.feeds :=
  (c9_list_removal (fun _ => false) [("feed:f:config", "c")]
    ⟨[⟨"f", "t", none⟩]⟩ "g" ["f"] ⟨"f", "t", none⟩
    (by decide) (by decide)).2.1

/-- C10: the single email delete route deletes exactly the store key it is
given, unconditionally: for any metadata record — including one that does
not list the key, and a key under a different feed's prefix — the store
effect is precisely the one unconditional backend delete of that key, and
when that delete fulfils the key is absent afterwards; the metadata index
is never consulted as a guard. -/
theorem c10_unconditional_email_delete (delOk : String → Bool) (st : Store)
    (emailKey : String) (fid : String) (md : Option FeedMetadata)
    (hfid : fid ≠ "") :
    (deleteEmailRoute delOk st emailKey (some fid) md).2.1
        = (kvDelete delOk st emailKey).2 ∧
    (delOk emailKey = true →
      Store.get (deleteEmailRoute delOk st emailKey (some fid) md).2.1 emailKey
        = none) := by
  have hstore : (deleteEmailRoute delOk st emailKey (some fid) md).2.1
      = (kvDelete delOk st emailKey).2 := by
    simp only [deleteEmailRoute]
    rw [if_neg hfid]
    split_ifs <;> rfl
  refine ⟨hstore, fun hok => ?_⟩
  rw [hstore]
  simp only [kvDelete, hok, if_true]
  exact Store.get_del_none _ _

/-- C10, witness: deleting the key `feed:b:9` through the route with owning
feed `a`, whose metadata index is empty, still removes the key. -/
theorem c10_unconditional_email_delete_witness :
    Store.get (deleteEmailRoute (fun _ => true) [("feed:b:9", "v")] "feed:b:9"
        (some "a") (some ⟨[]⟩)).2.1 "feed:b:9" = none :=
  (c10_unconditional_email_delete (fun _ => true) [("feed:b:9", "v")] "feed:b:9"
    "a" (some ⟨[]⟩) (by decide)).2 rfl

end EmailToRss
